import Mathlib

/-!
# Verification of the MKV chapter recognition & rewrite pipeline

A shallow embedding, in Lean 4, of the core of
`auto_rename_mkv_chapters.py`: the chapter XML codec, the sampling-policy
algorithm, the audio-sample extraction contract, the title-template
engine, the per-chapter recognition loop, the configuration merge, the
backup-restore validation, and the time formatting helpers.

Conventions used throughout:
* Python `str` values are modelled as `List Char` (named `Str` below);
  f-string interpolation becomes list concatenation.
* Python `float` arithmetic is modelled with exact rationals (`ℚ`);
  every concrete value appearing in the statements below is exactly
  representable, and the source's arithmetic on them is exact.
* Effectful steps (subprocess invocations, network calls) are modelled
  by passing their observable outcome in explicitly, so each function
  under verification is the pure part of the corresponding Python code.
-/

namespace MKVSpec

/-- Python strings are modelled as lists of characters. -/
abbrev Str := List Char

/-! ## String utilities shared by the embedded functions

`findSub` captures the semantics of a lazy regex search for the first
occurrence of a literal pattern: it returns the text before the first
occurrence together with the text after it.  `pySplit` is Python's
`str.split(sep)` for a single-character separator. -/

/-- Split `s` at the first occurrence of the literal `pat`:
`findSub pat s = some (before, after)` iff `s = before ++ pat ++ after`
with `pat` not occurring earlier.  `none` when `pat` does not occur. -/
def findSub (pat : Str) : Str → Option (Str × Str)
  | [] => if pat.isPrefixOf [] then some ([], []) else none
  | c :: rest =>
    if pat.isPrefixOf (c :: rest) then some ([], (c :: rest).drop pat.length)
    else (findSub pat rest).map fun p => (c :: p.1, p.2)

/-- Python's `str.split(sep)` for a one-character separator: always
returns at least one (possibly empty) part. -/
def pySplit (sep : Char) : Str → List Str
  | [] => [[]]
  | c :: rest =>
    if c = sep then [] :: pySplit sep rest
    else
      match pySplit sep rest with
      | [] => [[c]]
      | p :: ps => (c :: p) :: ps

/-- Python's `str.strip()`: remove whitespace from both ends. -/
def pyStrip (s : Str) : Str :=
  ((s.dropWhile Char.isWhitespace).reverse.dropWhile Char.isWhitespace).reverse

/-- Python's `int()` on a decimal digit string (the source applies it
only to the digit fields produced by its own time formatter; on other
strings the source raises, which no claim exercises). -/
def pyInt (s : Str) : ℤ :=
  s.foldl (fun a c => 10 * a + ((c.toNat : ℤ) - ('0'.toNat : ℤ))) 0

/-- Python's `float()` on a decimal string with an optional single
fractional part, exact as a rational. -/
def pyFloat (s : Str) : ℚ :=
  match pySplit '.' s with
  | [a] => (pyInt a : ℚ)
  | a :: b :: _ => (pyInt a : ℚ) + (pyInt b : ℚ) / (10 : ℚ) ^ b.length
  | [] => 0

/-! ## Sampling policy (`SamplingStrategy`, `RecognitionConfig`)

Translated from `auto_rename_mkv_chapters.py`, lines 159-198. -/

/-- The four sampling strategies of `class SamplingStrategy(Enum)`. -/
inductive SamplingStrategy where
  | start
  | middle
  | «end»
  | custom
deriving DecidableEq, Repr

/-- `@dataclass class RecognitionConfig` with its defaults.
`duration` is a Python `int`; the other numeric fields are floats,
modelled as rationals. -/
structure RecognitionConfig where
  strategy : SamplingStrategy := .start
  offset : ℚ := 5
  percentage : ℚ := 1/2
  duration : ℤ := 3
deriving DecidableEq, Repr

/-- `RecognitionConfig.calculate_sample_time`.  The trailing
`return chapter_start + self.offset` of the source is unreachable (the
`if/elif` chain covers all four enum members) and the exhaustive match
renders it faithfully.  Python's `duration / 2` is true division, hence
the cast to `ℚ`. -/
def RecognitionConfig.calculate_sample_time (cfg : RecognitionConfig)
    (chapter_start : ℚ) (chapter_end : Option ℚ := none) : ℚ :=
  match cfg.strategy with
  | .start => chapter_start + cfg.offset
  | .middle =>
    -- if there is no end time, assume a chapter length of 3 minutes
    let ce := chapter_end.getD (chapter_start + 180)
    let mid_point := (chapter_start + ce) / 2
    mid_point - (cfg.duration : ℚ) / 2
  | .«end» =>
    let ce := chapter_end.getD (chapter_start + 180)
    max chapter_start (ce - (cfg.duration : ℚ) - 5)
  | .custom =>
    let ce := chapter_end.getD (chapter_start + 180)
    let chapter_duration := ce - chapter_start
    chapter_start + chapter_duration * cfg.percentage

/-- The sampling formulas exactly as the specification words them
(§4.2 of the spec), for comparison with the translated source. -/
def specSampleTime (cfg : RecognitionConfig)
    (chapterStart : ℚ) (chapterEnd : Option ℚ) : ℚ :=
  let assumedEnd := match chapterEnd with
    | some e => e
    | none => chapterStart + 180
  match cfg.strategy with
  | .start => chapterStart + cfg.offset
  | .middle => (chapterStart + assumedEnd) / 2 - (cfg.duration : ℚ) / 2
  | .«end» => max chapterStart (assumedEnd - (cfg.duration : ℚ) - 5)
  | .custom => chapterStart + (assumedEnd - chapterStart) * cfg.percentage

/-- C5: `calculate_sample_time` computes exactly the spec's formulas for
all four strategies, including the 180-second substitution for an
unknown end time; the four worked examples of the spec hold; and the
`custom` strategy applies the percentage without any clamping, for every
percentage value. -/
theorem calculate_sample_time_exact :
    (∀ (cfg : RecognitionConfig) (s : ℚ) (e : Option ℚ),
      cfg.calculate_sample_time s e = specSampleTime cfg s e) ∧
    RecognitionConfig.calculate_sample_time ⟨.start, 5, 1/2, 3⟩ 10 none = 15 ∧
    RecognitionConfig.calculate_sample_time ⟨.middle, 5, 1/2, 3⟩ 0 (some 60) = 57/2 ∧
    RecognitionConfig.calculate_sample_time ⟨.«end», 5, 1/2, 3⟩ 0 (some 60) = 52 ∧
    RecognitionConfig.calculate_sample_time ⟨.custom, 5, 3/10, 3⟩ 0 (some 100) = 30 ∧
    (∀ (s e p off : ℚ) (dur : ℤ),
      RecognitionConfig.calculate_sample_time ⟨.custom, off, p, dur⟩ s (some e)
        = s + (e - s) * p) := by
  refine ⟨?_, by norm_num [RecognitionConfig.calculate_sample_time],
    by norm_num [RecognitionConfig.calculate_sample_time],
    by norm_num [RecognitionConfig.calculate_sample_time, max_eq_right],
    by norm_num [RecognitionConfig.calculate_sample_time],
    fun s e p off dur => by
      simp [RecognitionConfig.calculate_sample_time]⟩
  intro cfg s e
  cases h : cfg.strategy <;>
    cases e <;>
      simp [RecognitionConfig.calculate_sample_time, specSampleTime, h]

/-- C3 counterexample: the claim that all four strategies yield a sample
offset `≥ chapterStart` fails on the code.  For the `middle` strategy
with a zero-length chapter (`start = end = 0`, a case allowed by the
invariant `end ≥ start`) and the default duration 3, the result is
`-3/2 < 0`. -/
theorem sample_time_below_start_cex :
    RecognitionConfig.calculate_sample_time ⟨.middle, 5, 1/2, 3⟩ 0 (some 0)
        = -(3/2) ∧
    (0 : ℚ) ≤ 0 ∧ -(3/2 : ℚ) < 0 := by
  norm_num [RecognitionConfig.calculate_sample_time]

/-- C3 (amended): writing `eff` for the effective end time (the given
end, or `chapterStart + 180` when absent), the computed offset is
`≥ chapterStart` exactly when: the configured offset is non-negative
(`start`); the sample duration does not exceed `eff - chapterStart`
(`middle`); always (`end`, through its explicit `max`); or
`(eff - chapterStart) * percentage` is non-negative (`custom` — for a
chapter of positive effective length that is precisely
`percentage ≥ 0`, while a zero-length chapter satisfies it for every
percentage).  Only the `end` strategy clamps unconditionally. -/
theorem sample_time_ge_start (cfg : RecognitionConfig)
    (s : ℚ) (e : Option ℚ) :
    (s ≤ cfg.calculate_sample_time s e ↔
      match cfg.strategy with
      | .start => 0 ≤ cfg.offset
      | .middle => (cfg.duration : ℚ) ≤ e.getD (s + 180) - s
      | .«end» => True
      | .custom => 0 ≤ (e.getD (s + 180) - s) * cfg.percentage) := by
  obtain ⟨eff, heq⟩ : ∃ eff : ℚ, e.getD (s + 180) = eff := ⟨_, rfl⟩
  cases hst : cfg.strategy <;>
    simp only [RecognitionConfig.calculate_sample_time, hst, heq]
  · constructor <;> intro h <;> linarith
  · constructor <;> intro h <;> linarith
  · simp [le_max_iff]
  · constructor <;> intro h <;> linarith

/-! ## Audio sample extraction (`AFPInstance`, `AudioRecognizer.extract_audio_sample`)

Translated from `auto_rename_mkv_chapters.py`, lines 401-405 and 638-676. -/

/-- `AFPInstance.DURATION`: fixed fingerprint sample length in seconds. -/
def DURATION : Nat := 3

/-- `AFPInstance.SAMPLERATE`: fixed sample rate in Hz. -/
def SAMPLERATE : Nat := 8000

/-- `AFPInstance.SAMPLECOUNT = DURATION * SAMPLERATE`. -/
def SAMPLECOUNT : Nat := DURATION * SAMPLERATE

/-- One decoded 32-bit float sample is a group of four raw bytes; the
IEEE-754 decoding itself is opaque to every claim (only the grouping and
the count matter), so `unpack('<Nf', buf)` is modelled as splitting the
buffer into consecutive 4-byte groups. -/
def chunks4 : List Nat → List (List Nat)
  | a :: b :: c :: d :: rest => [a, b, c, d] :: chunks4 rest
  | _ => []

/-- `AudioRecognizer.extract_audio_sample`, given the observable outcome
of the ffmpeg subprocess: `exitOk` is whether the tool exited 0 (a
non-zero exit raises `CalledProcessError`, caught and turned into
`None`), and `buffer` is the bytes it wrote to stdout.  The `duration`
argument is the `-t` value passed to ffmpeg; note that the validation
threshold `expected_size = SAMPLECOUNT * 4` does not depend on it. -/
def extract_audio_sample (duration : Nat) (exitOk : Bool)
    (buffer : List Nat) : Option (List (List Nat)) :=
  if exitOk = false then none
  else
    let expected_size := SAMPLECOUNT * 4
    if buffer.length < expected_size then none
    else some (chunks4 (buffer.take expected_size))

theorem chunks4_length : ∀ (k : Nat) (l : List Nat),
    l.length = 4 * k → (chunks4 l).length = k := by
  intro k
  induction k with
  | zero =>
    intro l hl
    match l, hl with
    | [], _ => rfl
  | succ n ih =>
    intro l hl
    match l, hl with
    | a :: b :: c :: d :: rest, hl =>
      have : rest.length = 4 * n := by
        simp only [List.length_cons] at hl; omega
      simp [chunks4, ih rest this]

/-- C6 counterexample: for an invocation with sample duration `d = 5`
and a successful tool exit, a buffer of `SAMPLECOUNT * 4 = 96000` bytes
is *accepted* (and yields `SAMPLECOUNT = 24000` samples), although it is
shorter than the `sampleRate * d * 4 = 160000` bytes the claim requires
for success: the threshold ignores the duration argument. -/
theorem extract_audio_sample_cex :
    extract_audio_sample 5 true (List.replicate (SAMPLECOUNT * 4) 0)
        = some (chunks4 (List.replicate (SAMPLECOUNT * 4) 0)) ∧
    (chunks4 (List.replicate (SAMPLECOUNT * 4) 0)).length = SAMPLECOUNT ∧
    SAMPLECOUNT * 4 < SAMPLERATE * 5 * 4 := by
  refine ⟨?_, ?_, by norm_num [SAMPLECOUNT, SAMPLERATE, DURATION]⟩
  · simp [extract_audio_sample, List.take_replicate]
  · exact chunks4_length SAMPLECOUNT _ (by simp [Nat.mul_comm])

/-- C6 (amended): on a zero exit the extraction fails with the
insufficient-audio-data condition (returns `none`, no raised error)
exactly when the buffer is shorter than `SAMPLERATE * DURATION * 4`
bytes — the recognizer's fixed 3-second window, independent of the
`duration` argument — and otherwise the buffer is truncated to exactly
that many bytes and unpacked into exactly `SAMPLERATE * DURATION`
samples. -/
theorem extract_audio_sample_spec (d : Nat) (buf : List Nat) :
    (extract_audio_sample d true buf = none ↔
      buf.length < SAMPLERATE * DURATION * 4) ∧
    (buf.length < SAMPLERATE * DURATION * 4 ∨
      (extract_audio_sample d true buf
          = some (chunks4 (buf.take (SAMPLERATE * DURATION * 4))) ∧
        (chunks4 (buf.take (SAMPLERATE * DURATION * 4))).length
          = SAMPLERATE * DURATION)) := by
  have hsc : SAMPLECOUNT * 4 = SAMPLERATE * DURATION * 4 := by
    simp [SAMPLECOUNT, Nat.mul_comm]
  constructor
  · simp only [extract_audio_sample, hsc]
    split <;> simp_all
  · by_cases h : buf.length < SAMPLERATE * DURATION * 4
    · exact Or.inl h
    · refine Or.inr ⟨?_, ?_⟩
      · simp only [extract_audio_sample, hsc]
        simp [h]
      · refine chunks4_length _ _ ?_
        rw [List.length_take]
        omega

/-! ## Title template engine (`ChapterTemplate.format`)

Translated from `auto_rename_mkv_chapters.py`, lines 243-272.  The
regex substitutions of the source
(`[（(]?\{trans_name\}[）)]?`, `\s+`, `\s*[（(]\s*[）)]\s*`, `\s*-\s*$`)
are literal-pattern scans with greedy optional parts; each is rendered
below as a deterministic left-to-right scanner with exactly that
leftmost, non-overlapping semantics.  Scanners that advance by more
than one character per step use a character-count fuel (every step
consumes at least one character, so `s.length` fuel is always enough). -/

/-- A recognized-song record as built by `AudioRecognizer.recognize_song`
(artists already comma-joined); `popularity` is the only non-string
field. -/
structure SongInfo where
  name : Str
  transName : Str
  artists : Str
  album : Str
  id : Str
  popularity : Nat
deriving DecidableEq, Repr

/-- The literal `{trans_name}` token. -/
def transToken : Str := "{trans_name}".toList

/-- Whether a literal pattern occurs in `s` (Python's `in`). -/
def containsSub (pat s : Str) : Bool := (findSub pat s).isSome

/-- Drop one closing (full-width or ASCII) parenthesis, if present: the
greedy `[）)]?` after the matched token. -/
def dropClosePar : Str → Str
  | [] => []
  | d :: t => if d = '）' || d = ')' then t else d :: t

/-- `re.sub(r'[（(]?\{trans_name\}[）)]?', '', s)`: remove every
occurrence of the token together with an immediately surrounding
optional bracket pair. -/
def removeTransF : Nat → Str → Str
  | _, [] => []
  | 0, s => s
  | f + 1, c :: rest =>
    if (c = '（' || c = '(') && transToken.isPrefixOf rest then
      removeTransF f (dropClosePar (rest.drop transToken.length))
    else if transToken.isPrefixOf (c :: rest) then
      removeTransF f (dropClosePar ((c :: rest).drop transToken.length))
    else c :: removeTransF f rest

def removeTrans (s : Str) : Str := removeTransF s.length s

/-- `re.sub(r'\s+', ' ', s)`: collapse every whitespace run to a single
space. -/
def collapseWSF : Nat → Str → Str
  | _, [] => []
  | 0, s => s
  | f + 1, c :: rest =>
    if c.isWhitespace then ' ' :: collapseWSF f (rest.dropWhile Char.isWhitespace)
    else c :: collapseWSF f rest

def collapseWS (s : Str) : Str := collapseWSF s.length s

/-- `re.sub(r'\s*[（(]\s*[）)]\s*', '', s)`: remove an empty bracket
pair together with surrounding whitespace. -/
def remEmptyBrF : Nat → Str → Str
  | _, [] => []
  | 0, s => s
  | f + 1, c :: rest =>
    match (c :: rest).dropWhile Char.isWhitespace with
    | o :: s2 =>
      if o = '（' || o = '(' then
        match s2.dropWhile Char.isWhitespace with
        | cl :: s4 =>
          if cl = '）' || cl = ')' then remEmptyBrF f (s4.dropWhile Char.isWhitespace)
          else c :: remEmptyBrF f rest
        | [] => c :: remEmptyBrF f rest
      else c :: remEmptyBrF f rest
    | [] => c :: remEmptyBrF f rest

def remEmptyBr (s : Str) : Str := remEmptyBrF s.length s

/-- `re.sub(r'\s*-\s*$', '', s)`: strip one trailing dash together with
the whitespace around it. -/
def stripTrailingDash (s : Str) : Str :=
  match s.reverse.dropWhile Char.isWhitespace with
  | '-' :: r2 => (r2.dropWhile Char.isWhitespace).reverse
  | _ => s

/-- The template-variable dictionary built by `ChapterTemplate.format`;
`none` models a `KeyError` for an unrecognized token. -/
def lookupVar (song : SongInfo) (key : Str) : Option Str :=
  if key = "name".toList then some song.name
  else if key = "trans_name".toList then some song.transName
  else if key = "artists".toList then some song.artists
  else if key = "artist_first".toList then
    some (if song.artists = [] then []
          else pyStrip ((pySplit ',' song.artists).headD []))
  else if key = "album".toList then some song.album
  else if key = "id".toList then some song.id
  else if key = "popularity".toList then some (Nat.repr song.popularity).toList
  else none

/-- Python's `str.format(**variables)` for templates made of literal
text and `{token}` fields (the only shapes the program's templates use);
an unknown token gives `none` (`KeyError`). -/
def pyFormatF (song : SongInfo) : Nat → Str → Option Str
  | _, [] => some []
  | 0, _ => none
  | f + 1, c :: rest =>
    if c = '{' then
      let key := rest.takeWhile (fun d => !(d = '}'))
      match rest.dropWhile (fun d => !(d = '}')) with
      | [] => none
      | _ :: tail =>
        match lookupVar song key with
        | none => none
        | some v => (pyFormatF song f tail).map (fun r => v ++ r)
    else (pyFormatF song f rest).map (fun r => c :: r)

def pyFormat (song : SongInfo) (s : Str) : Option Str :=
  pyFormatF song s.length s

/-- `ChapterTemplate.format`: render a song record through a template.
On a `KeyError` the source falls back to `song_info.get('name', 'Unknown')`,
which is the record's name field here (every record carries one). -/
def ChapterTemplate.format (template : Str) (song : SongInfo) : Str :=
  let t :=
    if containsSub transToken template = true ∧ song.transName = [] then
      pyStrip (collapseWS (removeTrans template))
    else template
  match pyFormat song t with
  | some result => stripTrailingDash (pyStrip (collapseWS (remEmptyBr result)))
  | none => song.name

/-- The `with_trans` preset template. -/
def withTransTemplate : Str := "{name}（{trans_name}）- {artists}".toList

/-- The song record of the claim: empty translated name, `name="X"`,
`artists="A, B"`. -/
def songX : SongInfo := ⟨"X".toList, [], "A, B".toList, [], [], 0⟩

/-- C4 counterexample: the rendered title is `"X- A, B"`, not the
claimed `"X - A, B"`: removing `（{trans_name}）` also removes the
full-width bracket that separated `{name}` from the dash, and no space
is re-inserted. -/
theorem template_render_cex :
    ChapterTemplate.format withTransTemplate songX = "X- A, B".toList ∧
    "X- A, B".toList ≠ "X - A, B".toList := by decide

/-- C4 (amended): the `with_trans` template with an empty translated
name, `name="X"`, `artists="A, B"` renders to exactly `"X- A, B"` — the
token is removed together with its surrounding brackets, no empty
bracket pair and no double space remains, but the dash ends up directly
after the name. -/
theorem template_render_amended :
    ChapterTemplate.format withTransTemplate songX = "X- A, B".toList := by
  decide

/-! ## Chapter data model and the per-chapter recognition loop

`MKVChapter` is the chapter record (lines 448-455); `process` is the
per-chapter portion of `MKVAutoRename.process` (lines 753-796), the
part after chapter extraction and backup.  The two external effects in
the loop body — the ffmpeg invocation inside `extract_audio_sample` and
the fingerprint/catalog lookup inside `recognize_song` — are supplied
as step-indexed oracles: `ffmpegExit i`/`ffmpegOut i` are the exit
status and stdout bytes of the decode tool at chapter position `i`
(the computed seek offset parameterizes the real call but does not
affect control flow), and `recogResult i samples` is the outcome of
`recognize_song` on the unpacked samples. -/

/-- `class MKVChapter`: uid, start time (string `HH:MM:SS.sss`),
optional end time, title. -/
structure MKVChapter where
  uid : Str
  start_time : Str
  end_time : Option Str := none
  title : Str := []
deriving DecidableEq, Repr

/-- The observable outcomes of the external tools during one run. -/
structure PipelineEnv where
  ffmpegExit : Nat → Bool
  ffmpegOut : Nat → List Nat
  recogResult : Nat → List (List Nat) → Option SongInfo

/-- The combined extract-then-recognize outcome at chapter position `i`. -/
def recogAt (env : PipelineEnv) (i : Nat) : Option SongInfo :=
  match extract_audio_sample 3 (env.ffmpegExit i) (env.ffmpegOut i) with
  | none => none
  | some samples => env.recogResult i samples

/-- Whether chapter position `i` is recognized successfully. -/
def successAt (env : PipelineEnv) (i : Nat) : Bool := (recogAt env i).isSome

/-- One iteration of the loop body: on extraction failure the chapter is
skipped; on recognition failure the original title is kept; on success
the title is replaced by the rendered template and `updated_count` is
bumped (the boolean). -/
def processStep (template : Str) (env : PipelineEnv) (i : Nat)
    (ch : MKVChapter) : MKVChapter × Bool :=
  match extract_audio_sample 3 (env.ffmpegExit i) (env.ffmpegOut i) with
  | none => (ch, false)
  | some samples =>
    match env.recogResult i samples with
    | none => (ch, false)
    | some song => ({ ch with title := ChapterTemplate.format template song }, true)

/-- The loop over the chapter list, carrying the position index and
returning the final chapter list together with `updated_count`. -/
def processList (template : Str) (env : PipelineEnv) :
    Nat → List MKVChapter → List MKVChapter × Nat
  | _, [] => ([], 0)
  | i, ch :: rest =>
    let p := processStep template env i ch
    let q := processList template env (i + 1) rest
    (p.1 :: q.1, (if p.2 then 1 else 0) + q.2)

/-- `MKVAutoRename.process` after extraction and backup: an empty
chapter list returns immediately; otherwise the loop runs and
`update_chapters` is invoked iff `updated_count > 0`.  The result is
the final in-memory chapter list and whether the metadata write was
invoked. -/
def process (template : Str) (env : PipelineEnv)
    (chapters : List MKVChapter) : List MKVChapter × Bool :=
  if chapters = [] then (chapters, false)
  else
    let r := processList template env 0 chapters
    if 0 < r.2 then (r.1, true) else (r.1, false)

theorem processStep_eq (template : Str) (env : PipelineEnv) (i : Nat)
    (ch : MKVChapter) :
    processStep template env i ch =
      match recogAt env i with
      | none => (ch, false)
      | some song => ({ ch with title := ChapterTemplate.format template song }, true) := by
  unfold processStep recogAt
  cases extract_audio_sample 3 (env.ffmpegExit i) (env.ffmpegOut i) <;> rfl

theorem processStep_snd (template : Str) (env : PipelineEnv) (i : Nat)
    (ch : MKVChapter) :
    (processStep template env i ch).2 = successAt env i := by
  rw [processStep_eq]
  unfold successAt
  cases recogAt env i <;> rfl

theorem processList_length (template : Str) (env : PipelineEnv) :
    ∀ (cs : List MKVChapter) (k : Nat),
      (processList template env k cs).1.length = cs.length := by
  intro cs
  induction cs with
  | nil => intro k; rfl
  | cons ch rest ih => intro k; simp [processList, ih]

theorem processList_getElem (template : Str) (env : PipelineEnv) :
    ∀ (cs : List MKVChapter) (k m : Nat),
      (processList template env k cs).1[m]? =
        (cs[m]?).map fun c => (processStep template env (k + m) c).1 := by
  intro cs
  induction cs with
  | nil => intro k m; simp [processList]
  | cons ch rest ih =>
    intro k m
    cases m with
    | zero => simp [processList]
    | succ m' =>
      simp only [processList, List.getElem?_cons_succ]
      rw [ih (k + 1) m', show k + 1 + m' = k + (m' + 1) from by omega]

theorem processList_count_pos (template : Str) (env : PipelineEnv) :
    ∀ (cs : List MKVChapter) (k : Nat),
      0 < (processList template env k cs).2 ↔
        ∃ j, j < cs.length ∧ successAt env (k + j) = true := by
  intro cs
  induction cs with
  | nil => intro k; simp [processList]
  | cons ch rest ih =>
    intro k
    simp only [processList]
    constructor
    · intro h
      by_cases hs : successAt env k = true
      · exact ⟨0, by simp, by simpa using hs⟩
      · have hs' : (processStep template env k ch).2 = false := by
          rw [processStep_snd]; simpa using hs
        simp only [hs', Bool.false_eq_true, if_false, Nat.zero_add] at h
        obtain ⟨j, hj, hsj⟩ := (ih (k + 1)).mp h
        exact ⟨j + 1, by simpa using hj,
          by rw [show k + (j + 1) = k + 1 + j by omega]; exact hsj⟩
    · rintro ⟨j, hj, hsj⟩
      cases j with
      | zero =>
        have hs : (processStep template env k ch).2 = true := by
          rw [processStep_snd]; simpa using hsj
        simp [hs]
      | succ j' =>
        have hpos : 0 < (processList template env (k + 1) rest).2 :=
          (ih (k + 1)).mpr ⟨j', by simpa using hj,
            by rw [show k + 1 + j' = k + (j' + 1) by omega]; exact hsj⟩
        exact Nat.lt_of_lt_of_le hpos (Nat.le_add_left _ _)

/-- C2 (amended): the pipeline invokes the chapter-metadata write step
iff at least one chapter's *recognition succeeds*; in particular a run
in which no chapter is recognized never writes.  (Recognition success is
counted even when the freshly rendered title coincides with the existing
one — see the counterexample.) -/
theorem process_writes_iff (template : Str) (env : PipelineEnv)
    (cs : List MKVChapter) :
    (process template env cs).2 = true ↔
      ∃ j, j < cs.length ∧ successAt env j = true := by
  unfold process
  by_cases hcs : cs = []
  · subst hcs; simp
  · simp only [hcs, if_false]
    constructor
    · intro h
      have hpos : 0 < (processList template env 0 cs).2 := by
        by_contra hn
        rw [Nat.not_lt, Nat.le_zero] at hn
        simp [hn] at h
      obtain ⟨j, hj, hsj⟩ := (processList_count_pos template env cs 0).mp hpos
      exact ⟨j, hj, by simpa using hsj⟩
    · rintro ⟨j, hj, hsj⟩
      have hpos : 0 < (processList template env 0 cs).2 :=
        (processList_count_pos template env cs 0).mpr ⟨j, hj, by simpa using hsj⟩
      simp [hpos]

/-- `TEMPLATES['simple']`. -/
def nameTemplate : Str := "{name}".toList

/-- A song whose rendered `simple` title equals the chapter's current
title. -/
def songT : SongInfo := ⟨"T".toList, [], "A".toList, [], [], 0⟩

/-- A chapter already titled `"T"`. -/
def chT : MKVChapter := ⟨"1".toList, "00:00:05.000".toList, none, "T".toList⟩

/-- An environment in which every chapter extraction succeeds with a
full buffer and recognition always returns `songT`. -/
def envC2 : PipelineEnv :=
  ⟨fun _ => true, fun _ => List.replicate (SAMPLECOUNT * 4) 0, fun _ _ => some songT⟩

/-- A full-size (96000-byte) buffer passes the extraction check. -/
theorem extract_full_buffer :
    extract_audio_sample 3 true (List.replicate (SAMPLECOUNT * 4) 0)
      = some (chunks4 (List.replicate (SAMPLECOUNT * 4) 0)) := by
  simp [extract_audio_sample, List.take_replicate]

theorem recogAt_of_extract (env : PipelineEnv) (i : Nat)
    (samples : List (List Nat))
    (h : extract_audio_sample 3 (env.ffmpegExit i) (env.ffmpegOut i) = some samples) :
    recogAt env i = env.recogResult i samples := by
  unfold recogAt
  rw [h]

theorem processList_singleton (template : Str) (env : PipelineEnv)
    (i : Nat) (ch : MKVChapter) :
    processList template env i [ch] =
      ([(processStep template env i ch).1],
       if (processStep template env i ch).2 then 1 else 0) := by
  simp [processList]

theorem process_of_ne_nil (template : Str) (env : PipelineEnv)
    (cs : List MKVChapter) (h : cs ≠ []) :
    process template env cs =
      (if 0 < (processList template env 0 cs).2
       then ((processList template env 0 cs).1, true)
       else ((processList template env 0 cs).1, false)) := by
  unfold process
  simp only [h, if_false]

theorem envC2_recog : recogAt envC2 0 = some songT := by
  have hA : envC2.ffmpegExit 0 = true := rfl
  have hB : envC2.ffmpegOut 0 = List.replicate (SAMPLECOUNT * 4) 0 := rfl
  have hx : extract_audio_sample 3 (envC2.ffmpegExit 0) (envC2.ffmpegOut 0)
      = some (chunks4 (List.replicate (SAMPLECOUNT * 4) 0)) := by
    conv_lhs => rw [hA, hB]
    exact extract_full_buffer
  rw [recogAt_of_extract envC2 0 _ hx]
  rfl

/-- C2 counterexample: a run in which recognition succeeds but the
rendered title equals the existing title still invokes the metadata
write step (`updated_count` counts recognition successes, not actual
title changes), so "writes iff some title actually changed" fails: the
write happens while the chapter list is unchanged. -/
theorem process_writes_cex :
    process nameTemplate envC2 [chT] = ([chT], true) := by
  have hfmt : ChapterTemplate.format nameTemplate songT = "T".toList := by decide
  have hstep : processStep nameTemplate envC2 0 chT = (chT, true) := by
    rw [processStep_eq, envC2_recog]
    simp only [hfmt]
    rfl
  have hpl : processList nameTemplate envC2 0 [chT] = ([chT], 1) := by
    rw [processList_singleton, hstep]
    rfl
  rw [process_of_ne_nil nameTemplate envC2 [chT] (by simp), hpl]
  rfl

/-- C9: per-chapter failure isolation.  If chapter `i` fails (extraction
returns no samples — e.g. a short buffer — or recognition returns no
match) while chapter `j` succeeds, then the run still processes every
chapter (length preserved), chapter `i` is left completely unchanged,
the run commits, and chapter `j` carries the freshly rendered title. -/
theorem process_failure_isolation (template : Str) (env : PipelineEnv)
    (cs : List MKVChapter) (i j : Nat)
    (hi : i < cs.length) (hfail : successAt env i = false)
    (hj : j < cs.length) (hsucc : (recogAt env j).isSome = true) :
    (process template env cs).1.length = cs.length ∧
    (process template env cs).1[i]? = cs[i]? ∧
    (process template env cs).2 = true ∧
    (process template env cs).1[j]? = (cs[j]?).map
      (fun old => { old with
        title := ChapterTemplate.format template ((recogAt env j).get hsucc) }) := by
  have hcs : cs ≠ [] := by
    intro h; subst h; simp at hi
  have hwrote : (process template env cs).2 = true :=
    (process_writes_iff template env cs).mpr ⟨j, hj, hsucc⟩
  have hfst : (process template env cs).1 = (processList template env 0 cs).1 := by
    unfold process
    simp only [hcs, if_false]
    split <;> rfl
  refine ⟨?_, ?_, hwrote, ?_⟩
  · rw [hfst, processList_length]
  · rw [hfst, processList_getElem]
    have hnone : recogAt env i = none := by
      unfold successAt at hfail
      simpa using hfail
    have hstep : ∀ c, (processStep template env i c).1 = c := by
      intro c
      rw [processStep_eq, hnone]
    cases hx : cs[i]? with
    | none => rfl
    | some c => simp [hstep c]
  · rw [hfst, processList_getElem]
    obtain ⟨song, hsong⟩ : ∃ s, recogAt env j = some s :=
      Option.isSome_iff_exists.mp hsucc
    have hget : (recogAt env j).get hsucc = song := by
      simp [hsong]
    cases hx : cs[j]? with
    | none => rfl
    | some c =>
      simp only [Option.map_some']
      rw [processStep_eq, Nat.zero_add, hget, hsong]

/-- Five chapters, mirroring the spec's failure-isolation example. -/
def csW : List MKVChapter :=
  [⟨"1".toList, "00:00:00.000".toList, none, "C1".toList⟩,
   ⟨"2".toList, "00:03:00.000".toList, none, "C2".toList⟩,
   ⟨"3".toList, "00:06:00.000".toList, none, "C3".toList⟩,
   ⟨"4".toList, "00:09:00.000".toList, none, "C4".toList⟩,
   ⟨"5".toList, "00:12:00.000".toList, none, "C5".toList⟩]

/-- An environment in which chapter 3 (position 2) yields a short
10-byte buffer while every other chapter yields a full buffer and is
recognized as `songT`. -/
def envW : PipelineEnv :=
  ⟨fun _ => true,
   fun i => if i = 2 then List.replicate 10 0
            else List.replicate (SAMPLECOUNT * 4) 0,
   fun _ _ => some songT⟩

theorem envW_succ : (recogAt envW 0).isSome = true := by
  have hA : envW.ffmpegExit 0 = true := rfl
  have hB : envW.ffmpegOut 0 = List.replicate (SAMPLECOUNT * 4) 0 := rfl
  have hx : extract_audio_sample 3 (envW.ffmpegExit 0) (envW.ffmpegOut 0)
      = some (chunks4 (List.replicate (SAMPLECOUNT * 4) 0)) := by
    conv_lhs => rw [hA, hB]
    exact extract_full_buffer
  rw [recogAt_of_extract envW 0 _ hx]
  rfl

theorem envW_fail : successAt envW 2 = false := by
  have hx : extract_audio_sample 3 (envW.ffmpegExit 2) (envW.ffmpegOut 2) = none := by
    have hA : envW.ffmpegExit 2 = true := rfl
    have hB : envW.ffmpegOut 2 = List.replicate 10 0 := by
      simp [envW]
    conv_lhs => rw [hA, hB]
    simp [extract_audio_sample, SAMPLECOUNT, SAMPLERATE, DURATION]
  unfold successAt recogAt
  rw [hx]
  rfl

/-- Witness for `process_failure_isolation`: the concrete five-chapter
run in which position 2 delivers a short buffer and position 0
succeeds. -/
theorem process_failure_isolation_witness :
    (2 < csW.length ∧ successAt envW 2 = false ∧ 0 < csW.length) ∧
    ((process nameTemplate envW csW).1.length = csW.length ∧
     (process nameTemplate envW csW).1[2]? = csW[2]? ∧
     (process nameTemplate envW csW).2 = true ∧
     (process nameTemplate envW csW).1[0]? = (csW[0]?).map
       (fun old => { old with
         title := ChapterTemplate.format nameTemplate ((recogAt envW 0).get envW_succ) })) :=
  ⟨⟨by decide, envW_fail, by decide⟩,
    process_failure_isolation nameTemplate envW csW 2 0 (by decide) envW_fail
      (by decide) envW_succ⟩

/-! ## Configuration merge (`merge_config_with_args`)

Translated from `auto_rename_mkv_chapters.py`, lines 331-354, together
with the argparse defaults declared in `main()` (lines 943-991).
`ArgsNS` is the argparse namespace (values only — argparse does not
record whether a value was supplied); `CLIInput` records which options
the user actually supplied, and `parseArgs` applies the declared
defaults to produce the namespace the merge function sees. -/

/-- The argparse namespace handed to `merge_config_with_args`. -/
structure ArgsNS where
  mkv_file : Option Str
  output : Option Str
  strategy : Str
  offset : ℚ
  percentage : ℚ
  duration : ℤ
  template : Str
  ffmpeg : Option Str
  mkvextract : Option Str
  mkvpropedit : Option Str
  no_backup : Bool
  skip_check : Bool
deriving DecidableEq, Repr

/-- The JSON configuration file; every key may be absent (and a JSON
`null` behaves like an absent key for the fields below). -/
structure ConfigFile where
  mkv_file : Option Str := none
  output : Option Str := none
  template : Option Str := none
  custom_template : Option Str := none
  recStrategy : Option Str := none
  recOffset : Option ℚ := none
  recPercentage : Option ℚ := none
  recDuration : Option ℤ := none
  toolFfmpeg : Option Str := none
  toolMkvextract : Option Str := none
  toolMkvpropedit : Option Str := none
  optNoBackup : Option Bool := none
  optSkipCheck : Option Bool := none
deriving DecidableEq, Repr

/-- The merged configuration dictionary (flattened). -/
structure MergedConfig where
  mkv_file : Option Str
  output : Option Str
  template : Str
  custom_template : Option Str
  recStrategy : Str
  recOffset : ℚ
  recPercentage : ℚ
  recDuration : ℤ
  toolFfmpeg : Option Str
  toolMkvextract : Option Str
  toolMkvpropedit : Option Str
  optNoBackup : Bool
  optSkipCheck : Bool
deriving DecidableEq, Repr

/-- Python's `a or b` where `a` is an optional string: both `None` and
`""` are falsy. -/
def pyOrOpt (a b : Option Str) : Option Str :=
  match a with
  | none => b
  | some s => if s = [] then b else some s

/-- `merge_config_with_args(config, args)`: for the path-like settings
Python's `or` is used; for the scalar recognition settings and the
template the code compares the argparse value against the built-in
default to guess whether it was supplied. -/
def merge_config_with_args (config : ConfigFile) (args : ArgsNS) : MergedConfig where
  mkv_file := pyOrOpt args.mkv_file config.mkv_file
  output := pyOrOpt args.output config.output
  template :=
    if args.template ≠ "default".toList then args.template
    else config.template.getD "default".toList
  custom_template := config.custom_template
  recStrategy :=
    if args.strategy ≠ "start".toList then args.strategy
    else config.recStrategy.getD "start".toList
  recOffset := if args.offset ≠ 5 then args.offset else config.recOffset.getD 5
  recPercentage :=
    if args.percentage ≠ 1/2 then args.percentage else config.recPercentage.getD (1/2)
  recDuration := if args.duration ≠ 3 then args.duration else config.recDuration.getD 3
  toolFfmpeg := pyOrOpt args.ffmpeg config.toolFfmpeg
  toolMkvextract := pyOrOpt args.mkvextract config.toolMkvextract
  toolMkvpropedit := pyOrOpt args.mkvpropedit config.toolMkvpropedit
  optNoBackup := args.no_backup || config.optNoBackup.getD false
  optSkipCheck := args.skip_check || config.optSkipCheck.getD false

/-- What the user actually supplied on the command line (`none` /
`false` = not supplied). -/
structure CLIInput where
  mkv_file : Option Str := none
  output : Option Str := none
  strategy : Option Str := none
  offset : Option ℚ := none
  percentage : Option ℚ := none
  duration : Option ℤ := none
  template : Option Str := none
  ffmpeg : Option Str := none
  mkvextract : Option Str := none
  mkvpropedit : Option Str := none
  no_backup : Bool := false
  skip_check : Bool := false
deriving DecidableEq, Repr

/-- argparse: fill in the declared defaults (`strategy='start'`,
`offset=5.0`, `percentage=0.5`, `duration=3`, `template='default'`,
tool paths `None`, flags `store_true`). -/
def parseArgs (c : CLIInput) : ArgsNS where
  mkv_file := c.mkv_file
  output := c.output
  strategy := c.strategy.getD "start".toList
  offset := c.offset.getD 5
  percentage := c.percentage.getD (1/2)
  duration := c.duration.getD 3
  template := c.template.getD "default".toList
  ffmpeg := c.ffmpeg
  mkvextract := c.mkvextract
  mkvpropedit := c.mkvpropedit
  no_backup := c.no_backup
  skip_check := c.skip_check

/-- The merge as the spec words it: the command-line value whenever one
is supplied, the configuration-file value (with its default) only when
not. -/
def specMerge (c : CLIInput) (config : ConfigFile) : MergedConfig where
  mkv_file := c.mkv_file.or config.mkv_file
  output := c.output.or config.output
  template := c.template.getD (config.template.getD "default".toList)
  custom_template := config.custom_template
  recStrategy := c.strategy.getD (config.recStrategy.getD "start".toList)
  recOffset := c.offset.getD (config.recOffset.getD 5)
  recPercentage := c.percentage.getD (config.recPercentage.getD (1/2))
  recDuration := c.duration.getD (config.recDuration.getD 3)
  toolFfmpeg := c.ffmpeg.or config.toolFfmpeg
  toolMkvextract := c.mkvextract.or config.toolMkvextract
  toolMkvpropedit := c.mkvpropedit.or config.toolMkvpropedit
  optNoBackup := c.no_backup || config.optNoBackup.getD false
  optSkipCheck := c.skip_check || config.optSkipCheck.getD false

theorem pyOrOpt_of_ne_empty (a b : Option Str) (h : a ≠ some []) :
    pyOrOpt a b = a.or b := by
  cases a with
  | none => rfl
  | some v =>
    have hv : v ≠ [] := fun hv => h (by rw [hv])
    simp [pyOrOpt, hv, Option.or]

theorem getD_override {α : Type} [DecidableEq α] (a : Option α) (d b : α)
    (h : a ≠ some d) :
    (if a.getD d ≠ d then a.getD d else b) = a.getD b := by
  cases a with
  | none => simp
  | some v =>
    have hv : v ≠ d := fun hv => h (by rw [hv])
    simp [Option.getD, hv]

/-- The CLI input of the counterexample: the user explicitly supplies
`--strategy start` (the built-in default). -/
def cliCex : CLIInput := { strategy := some "start".toList }

/-- A configuration file that sets `recognition.strategy` to
`"middle"`. -/
def cfgCex : ConfigFile := { recStrategy := some "middle".toList }

/-- C7 counterexample: a command-line value equal to the built-in
default is indistinguishable from "not supplied", so the file value
wins: with `--strategy start` on the command line and `"middle"` in the
file, the merged strategy is `"middle"`, not the supplied `"start"`. -/
theorem merge_override_cex :
    cliCex.strategy = some "start".toList ∧
    (merge_config_with_args cfgCex (parseArgs cliCex)).recStrategy = "middle".toList ∧
    "middle".toList ≠ "start".toList := by decide

/-- C7 (amended): command-line values take precedence whenever they are
distinguishable from "not supplied": non-empty for the path-like
settings, different from the built-in default for template, strategy,
offset, percentage and duration, and `true` for the flags; under those
conditions the merge is exactly "CLI when supplied, else file value
(else the built-in default)". -/
theorem merge_args_precedence (c : CLIInput) (config : ConfigFile)
    (h1 : c.mkv_file ≠ some []) (h2 : c.output ≠ some [])
    (h3 : c.ffmpeg ≠ some []) (h4 : c.mkvextract ≠ some [])
    (h5 : c.mkvpropedit ≠ some [])
    (h6 : c.template ≠ some "default".toList)
    (h7 : c.strategy ≠ some "start".toList)
    (h8 : c.offset ≠ some 5) (h9 : c.percentage ≠ some (1/2))
    (h10 : c.duration ≠ some 3) :
    merge_config_with_args config (parseArgs c) = specMerge c config := by
  unfold merge_config_with_args specMerge parseArgs
  simp only [MergedConfig.mk.injEq]
  refine ⟨?_, ?_, ?_, ?_, ?_, ?_, ?_, ?_, ?_, ?_, ?_, ?_, ?_⟩
  · exact pyOrOpt_of_ne_empty _ _ h1
  · exact pyOrOpt_of_ne_empty _ _ h2
  · exact getD_override _ _ _ h6
  · trivial
  · exact getD_override _ _ _ h7
  · exact getD_override _ _ _ h8
  · exact getD_override _ _ _ h9
  · exact getD_override _ _ _ h10
  · exact pyOrOpt_of_ne_empty _ _ h3
  · exact pyOrOpt_of_ne_empty _ _ h4
  · exact pyOrOpt_of_ne_empty _ _ h5
  · trivial
  · trivial

/-- A fully supplied, fully distinguishable command line. -/
def cliW : CLIInput :=
  ⟨some "a.mkv".toList, some "out.mkv".toList, some "middle".toList,
   some 7, some (3/10), some 4, some "simple".toList,
   some "ffm".toList, some "mke".toList, some "mkp".toList, true, true⟩

/-- A configuration file that sets every key differently. -/
def cfgW : ConfigFile :=
  ⟨some "c.mkv".toList, some "o2.mkv".toList, some "full".toList,
   some "{name}".toList, some "custom".toList, some 9, some (1/4), some 5,
   some "f2".toList, some "m2".toList, some "p2".toList,
   some false, some false⟩

/-- Witness for `merge_args_precedence` at a fully supplied command
line. -/
theorem merge_args_precedence_witness :
    (cliW.mkv_file ≠ some [] ∧ cliW.output ≠ some [] ∧
     cliW.ffmpeg ≠ some [] ∧ cliW.mkvextract ≠ some [] ∧
     cliW.mkvpropedit ≠ some [] ∧
     cliW.template ≠ some "default".toList ∧
     cliW.strategy ≠ some "start".toList ∧
     cliW.offset ≠ some 5 ∧ cliW.percentage ≠ some (1/2) ∧
     cliW.duration ≠ some 3) ∧
    merge_config_with_args cfgW (parseArgs cliW) = specMerge cliW cfgW :=
  ⟨⟨by decide, by decide, by decide, by decide, by decide, by decide,
    by decide, by norm_num [cliW], by norm_num [cliW], by norm_num [cliW]⟩,
    merge_args_precedence cliW cfgW (by decide) (by decide) (by decide)
      (by decide) (by decide) (by decide) (by decide) (by norm_num [cliW])
      (by norm_num [cliW]) (by norm_num [cliW])⟩

/-! ## Backup restore validation (`MKVAutoRename.restore_from_backup`)

Translated from `auto_rename_mkv_chapters.py`, lines 817-904: the part
of `restore_from_backup` that runs before any container write (the
temporary chapter file and the `mkvpropedit` invocation come strictly
after every failure modelled here, so an error below means the routine
raises without writing).  The sidecar is passed in as
`Option (Option JVal)`: `none` = file absent (`FileNotFoundError`),
`some none` = present but not parseable as JSON (`json.JSONDecodeError`,
re-raised as `ValueError`), `some (some v)` = the parsed JSON value. -/

/-- A parsed JSON value. -/
inductive JVal where
  | null
  | jbool (b : Bool)
  | jnum (n : ℤ)
  | jstr (s : Str)
  | jarr (elems : List JVal)
  | jobj (fields : List (Str × JVal))

/-- A chapter reconstructed from one backup entry (`MKVChapter(...)`
applied to whatever JSON values the entry holds). -/
structure RChapter where
  uid : JVal
  start_time : JVal
  end_time : Option JVal
  title : JVal

/-- The ways the routine raises before any container write. -/
inductive RestoreError where
  | backupMissing
  | jsonInvalid
  | emptyBackup
  | badEntry
deriving DecidableEq, Repr

/-- Python truthiness of a JSON value (`if not chapters_data`). -/
def pyTruthy : JVal → Bool
  | .null => false
  | .jbool b => b
  | .jnum n => n != 0
  | .jstr [] => false
  | .jstr (_ :: _) => true
  | .jarr [] => false
  | .jarr (_ :: _) => true
  | .jobj [] => false
  | .jobj (_ :: _) => true

/-- Dictionary lookup (`data['k']` / `data.get('k')`); JSON objects keep
the last value for a duplicated key, hence the reversed search. -/
def lookupKey (fields : List (Str × JVal)) (k : Str) : Option JVal :=
  (fields.reverse.find? (fun p => p.1 = k)).map (·.2)

/-- Convert one backup entry to a chapter: requires a JSON object with
`uid`, `start_time` and `title` present (`KeyError` otherwise; a
non-object entry raises `TypeError`); `end_time` is optional and a JSON
`null` becomes an absent end time, exactly as `data.get('end_time')`. -/
def entryToChapter (v : JVal) : Option RChapter :=
  match v with
  | .jobj fields =>
    match lookupKey fields "uid".toList, lookupKey fields "start_time".toList,
          lookupKey fields "title".toList with
    | some u, some st, some t =>
      some ⟨u, st,
        (match lookupKey fields "end_time".toList with
         | none => none
         | some .null => none
         | some e => some e), t⟩
    | _, _, _ => none
  | _ => none

def convertEntries : List JVal → Option (List RChapter)
  | [] => some []
  | v :: rest =>
    match entryToChapter v, convertEntries rest with
    | some c, some cs => some (c :: cs)
    | _, _ => none

/-- The pre-write part of `restore_from_backup`: absent file →
`FileNotFoundError`; unparseable → `ValueError`; falsy parsed document
(`if not chapters_data`) → "no chapter info" `ValueError`; then the
conversion loop, which raises on a non-list document (iterating a dict
or string yields non-entry elements, a number is not iterable) or on a
malformed entry. -/
def restoreCore (backup : Option (Option JVal)) :
    Except RestoreError (List RChapter) :=
  match backup with
  | none => .error .backupMissing
  | some none => .error .jsonInvalid
  | some (some v) =>
    if pyTruthy v = false then .error .emptyBackup
    else
      match v with
      | .jarr entries =>
        match convertEntries entries with
        | some cs => .ok cs
        | none => .error .badEntry
      | _ => .error .badEntry

/-- Whether the routine raised (before any container write). -/
def isErrB : Except RestoreError (List RChapter) → Bool
  | .error _ => true
  | .ok _ => false

/-- The claim's three failure cases: absent, unparseable, or an empty
chapter list. -/
def claimedInvalid : Option (Option JVal) → Bool
  | none => true
  | some none => true
  | some (some (.jarr [])) => true
  | _ => false

def entryOk (v : JVal) : Bool := (entryToChapter v).isSome

/-- A backup that actually restores: present, parseable, a non-empty
JSON array whose entries all convert. -/
def validBackupB : Option (Option JVal) → Bool
  | some (some (.jarr (e :: es))) => (e :: es).all entryOk
  | _ => false

theorem convertEntries_isSome : ∀ (l : List JVal),
    (convertEntries l).isSome = l.all entryOk := by
  intro l
  induction l with
  | nil => rfl
  | cons v rest ih =>
    cases hv : entryToChapter v <;> cases hr : convertEntries rest <;>
      simp_all [convertEntries, entryOk, hv, hr, List.all_cons]

/-- C8 counterexample: the backup document `[1]` is present, parseable
JSON and a *non-empty* list — none of the claim's three failure cases —
yet the routine still fails before any container write (`1['uid']`
raises), so "fails in exactly these cases" is false. -/
theorem restore_invalid_cex :
    isErrB (restoreCore (some (some (.jarr [.jnum 1])))) = true ∧
    claimedInvalid (some (some (.jarr [.jnum 1]))) = false := by decide

/-- C8 (amended): the routine fails before any container write exactly
when the sidecar is absent, not parseable as JSON, parses to a falsy
document (in particular an empty chapter list), is not a JSON array, or
contains an entry that is not an object carrying `uid`, `start_time`
and `title`. -/
theorem restore_fails_iff (b : Option (Option JVal)) :
    isErrB (restoreCore b) = !(validBackupB b) := by
  match b with
  | none => rfl
  | some none => rfl
  | some (some v) =>
    cases v with
    | null => rfl
    | jbool bb => cases bb <;> rfl
    | jnum n =>
      cases hn : (n != 0) <;>
        simp [restoreCore, pyTruthy, isErrB, validBackupB, hn]
    | jstr s => cases s <;> rfl
    | jobj f => cases f <;> rfl
    | jarr l =>
      cases l with
      | nil => rfl
      | cons e es =>
        have h := convertEntries_isSome (e :: es)
        cases hc : convertEntries (e :: es) with
        | none =>
          rw [hc] at h
          simp [restoreCore, pyTruthy, validBackupB, isErrB, hc, ← h]
        | some cs =>
          rw [hc] at h
          simp [restoreCore, pyTruthy, validBackupB, isErrB, hc, ← h]

/-! ## Time formatting (`MKVChapter.parse_time_to_seconds`,
`MKVChapter.format_seconds_to_time`)

Translated from `auto_rename_mkv_chapters.py`, lines 459-475.
`timedelta(seconds=s)` converts a float to whole microseconds with
Python's `round` (half to even) and normalizes with floor division;
the formatter reads only `td.seconds` and `td.microseconds`, silently
dropping `td.days`. -/

/-- Round half to even (Python's `round`) on an exact rational. -/
def rhe (q : ℚ) : ℤ :=
  if q - (⌊q⌋ : ℚ) < 1/2 then ⌊q⌋
  else if (1/2 : ℚ) < q - (⌊q⌋ : ℚ) then ⌊q⌋ + 1
  else if ⌊q⌋ % 2 = 0 then ⌊q⌋ else ⌊q⌋ + 1

/-- `timedelta(seconds=s)`, normalized to `(td.seconds, td.microseconds)`
(`td.days` is dropped, as the formatter never reads it). -/
def timedelta_parts (s : ℚ) : ℤ × ℤ :=
  (rhe (s * 1000000) / 1000000 % 86400,
   rhe (s * 1000000) % 1000000)

/-- `f"{n:02d}"` / `f"{n:03d}"` for a non-negative value. -/
def padZeros (w : Nat) (n : Nat) : Str :=
  List.replicate (w - (Nat.repr n).toList.length) '0' ++ (Nat.repr n).toList

/-- `MKVChapter.format_seconds_to_time`. -/
def format_seconds_to_time (s : ℚ) : Str :=
  let td := timedelta_parts s
  let hours := td.1 / 3600
  let remainder := td.1 % 3600
  let minutes := remainder / 60
  let secs := remainder % 60
  let millisecs := td.2 / 1000
  padZeros 2 hours.toNat ++ ':' :: padZeros 2 minutes.toNat ++ ':' ::
    padZeros 2 secs.toNat ++ '.' :: padZeros 3 millisecs.toNat

/-- `MKVChapter.parse_time_to_seconds`: split on `:`, parse hours and
minutes as ints and the last field as a float. -/
def parse_time_to_seconds (t : Str) : ℚ :=
  let parts := pySplit ':' t
  let hours := pyInt (parts.getD 0 [])
  let minutes := pyInt (parts.getD 1 [])
  let seconds := pyFloat (parts.getD 2 [])
  (hours : ℚ) * 3600 + (minutes : ℚ) * 60 + seconds

theorem rhe_intCast (n : ℤ) : rhe ((n : ℚ)) = n := by
  unfold rhe
  rw [Int.floor_intCast]
  norm_num

/-- `s₀ = 3599.99999999`, just below one hour. -/
def sCex : ℚ := 359999999999 / 100000000

theorem sCex_micro : rhe (sCex * 1000000) = 3600000000 := by
  have hq : sCex * 1000000 = 359999999999 / 100 := by norm_num [sCex]
  have hf : ⌊(359999999999 / 100 : ℚ)⌋ = 3599999999 := by
    rw [Int.floor_eq_iff]
    norm_num
  unfold rhe
  rw [hq, hf]
  norm_num

/-- C10 counterexample: for `s = 3599.99999999` the rounding to whole
microseconds inside `timedelta` carries across the hour boundary: the
rendered string is `01:00:00.000`, so the hours field is `1`, while the
claimed formula `(floor(s) mod 86400) div 3600` gives `0` — the claimed
field equation does not hold for every non-negative `s`. -/
theorem format_hours_cex :
    format_seconds_to_time sCex = "01:00:00.000".toList ∧
    pyInt ((pySplit ':' (format_seconds_to_time sCex)).getD 0 []) = 1 ∧
    ⌊sCex⌋ % 86400 / 3600 = 0 ∧
    (0 : ℚ) ≤ sCex ∧ sCex < 86400 := by
  have h1 : format_seconds_to_time sCex = "01:00:00.000".toList := by
    unfold format_seconds_to_time timedelta_parts
    rw [sCex_micro]
    decide
  have h2 : ⌊sCex⌋ = 3599 := by
    unfold sCex
    rw [Int.floor_eq_iff]
    norm_num
  rw [h1, h2]
  refine ⟨rfl, by decide, by decide, ?_, ?_⟩ <;> norm_num [sCex]

theorem pySplit_append (sep : Char) (a rest : Str) (h : sep ∉ a) :
    pySplit sep (a ++ sep :: rest) = a :: pySplit sep rest := by
  induction a with
  | nil => simp [pySplit]
  | cons c a' ih =>
    have hc : c ≠ sep := fun hcc => h (hcc ▸ List.mem_cons_self c a')
    have h' : sep ∉ a' := fun hm => h (List.mem_cons_of_mem c hm)
    simp [pySplit, hc, ih h']

theorem pySplit_no_sep (sep : Char) (a : Str) (h : sep ∉ a) :
    pySplit sep a = [a] := by
  induction a with
  | nil => rfl
  | cons c a' ih =>
    have hc : c ≠ sep := fun hcc => h (hcc ▸ List.mem_cons_self c a')
    have h' : sep ∉ a' := fun hm => h (List.mem_cons_of_mem c hm)
    simp [pySplit, hc, ih h']

theorem padZeros2_facts : ∀ n : Fin 100,
    (':' ∉ padZeros 2 n.val ∧ '.' ∉ padZeros 2 n.val) ∧
    pyInt (padZeros 2 n.val) = (n.val : ℤ) := by decide

set_option maxRecDepth 4000 in
theorem padZeros3_facts : ∀ n : Fin 1000,
    (':' ∉ padZeros 3 n.val ∧ '.' ∉ padZeros 3 n.val) ∧
    (padZeros 3 n.val).length = 3 ∧
    pyInt (padZeros 3 n.val) = (n.val : ℤ) := by decide

/-- Parsing a well-formed `HH:MM:SS.mmm` rendering recombines the four
fields. -/
theorem parse_format_fields (h m s' ms : ℕ)
    (hh : h < 100) (hm : m < 100) (hs : s' < 100) (hms : ms < 1000) :
    parse_time_to_seconds
        (padZeros 2 h ++ ':' :: padZeros 2 m ++ ':' ::
          padZeros 2 s' ++ '.' :: padZeros 3 ms)
      = (h : ℚ) * 3600 + (m : ℚ) * 60 + ((s' : ℚ) + (ms : ℚ) / 1000) := by
  have hcol_h : ':' ∉ padZeros 2 h := (padZeros2_facts ⟨h, hh⟩).1.1
  have hint_h : pyInt (padZeros 2 h) = (h : ℤ) := (padZeros2_facts ⟨h, hh⟩).2
  have hcol_m : ':' ∉ padZeros 2 m := (padZeros2_facts ⟨m, hm⟩).1.1
  have hint_m : pyInt (padZeros 2 m) = (m : ℤ) := (padZeros2_facts ⟨m, hm⟩).2
  have hcol_s : ':' ∉ padZeros 2 s' := (padZeros2_facts ⟨s', hs⟩).1.1
  have hdot_s : '.' ∉ padZeros 2 s' := (padZeros2_facts ⟨s', hs⟩).1.2
  have hint_s : pyInt (padZeros 2 s') = (s' : ℤ) := (padZeros2_facts ⟨s', hs⟩).2
  have hcol_ms : ':' ∉ padZeros 3 ms := (padZeros3_facts ⟨ms, hms⟩).1.1
  have hdot_ms : '.' ∉ padZeros 3 ms := (padZeros3_facts ⟨ms, hms⟩).1.2
  have hlen_ms : (padZeros 3 ms).length = 3 := (padZeros3_facts ⟨ms, hms⟩).2.1
  have hint_ms : pyInt (padZeros 3 ms) = (ms : ℤ) := (padZeros3_facts ⟨ms, hms⟩).2.2
  have hsplit : pySplit ':'
      (padZeros 2 h ++ ':' :: (padZeros 2 m ++ ':' ::
        (padZeros 2 s' ++ '.' :: padZeros 3 ms)))
      = [padZeros 2 h, padZeros 2 m, padZeros 2 s' ++ '.' :: padZeros 3 ms] := by
    rw [pySplit_append ':' _ _ hcol_h, pySplit_append ':' _ _ hcol_m,
      pySplit_no_sep ':' _ ?_]
    intro hmem
    rcases List.mem_append.mp hmem with hmem | hmem
    · exact hcol_s hmem
    · rcases List.mem_cons.mp hmem with hmem | hmem
      · exact absurd hmem.symm (by decide)
      · exact hcol_ms hmem
  have hfloat : pyFloat (padZeros 2 s' ++ '.' :: padZeros 3 ms)
      = (s' : ℚ) + (ms : ℚ) / 1000 := by
    unfold pyFloat
    rw [pySplit_append '.' _ _ hdot_s, pySplit_no_sep '.' _ hdot_ms]
    simp only [hint_s, hint_ms, hlen_ms]
    push_cast
    ring
  unfold parse_time_to_seconds
  simp only [List.append_assoc, List.cons_append]
  rw [hsplit]
  simp only [List.getD_cons_zero, List.getD_cons_succ]
  rw [hint_h, hint_m, hfloat]
  push_cast
  ring

/-- For a millisecond-exact input `j/1000` the formatter's four fields
are plain arithmetic on `j mod 86400000`: whole days are discarded. -/
theorem format_ms_exact (j : ℕ) :
    format_seconds_to_time ((j : ℚ) / 1000) =
      padZeros 2 (j % 86400000 / 3600000) ++ ':' ::
        padZeros 2 (j % 86400000 / 60000 % 60) ++ ':' ::
        padZeros 2 (j % 86400000 / 1000 % 60) ++ '.' ::
        padZeros 3 (j % 86400000 % 1000) := by
  have hq : (j : ℚ) / 1000 * 1000000 = (((1000 * j : ℕ) : ℤ) : ℚ) := by
    push_cast; ring
  have hu : rhe ((j : ℚ) / 1000 * 1000000) = ((1000 * j : ℕ) : ℤ) := by
    rw [hq, rhe_intCast]
  have hS : 1000 * j / 1000000 = j / 1000 := by
    rw [show (1000000 : ℕ) = 1000 * 1000 from rfl]
    exact Nat.mul_div_mul_left j 1000 (by norm_num)
  have hswap : j % 86400000 / 1000 = j / 1000 % 86400 := by
    rw [show (86400000 : ℕ) = 1000 * 86400 from rfl]
    exact Nat.mod_mul_right_div_self j 1000 86400
  have hH : 1000 * j / 1000000 % 86400 / 3600 = j % 86400000 / 3600000 := by
    rw [hS, ← hswap, Nat.div_div_eq_div_mul]
  have hM : 1000 * j / 1000000 % 86400 % 3600 / 60 = j % 86400000 / 60000 % 60 := by
    rw [hS, ← hswap, show (3600 : ℕ) = 60 * 60 from rfl,
      Nat.mod_mul_right_div_self, Nat.div_div_eq_div_mul]
  have hSc : 1000 * j / 1000000 % 86400 % 3600 % 60 = j % 86400000 / 1000 % 60 := by
    rw [hS, ← hswap, Nat.mod_mod_of_dvd _ (by norm_num : (60 : ℕ) ∣ 3600)]
  have hMs : 1000 * j % 1000000 / 1000 = j % 86400000 % 1000 := by
    rw [show (1000000 : ℕ) = 1000 * 1000 from rfl, Nat.mul_mod_mul_left,
      Nat.mul_div_cancel_left _ (by norm_num : 0 < 1000),
      Nat.mod_mod_of_dvd j (by norm_num : (1000 : ℕ) ∣ 86400000)]
  have c1 : ((((1000 * j : ℕ) : ℤ) / 1000000 % 86400) / 3600).toNat
      = 1000 * j / 1000000 % 86400 / 3600 := by omega
  have c2 : ((((1000 * j : ℕ) : ℤ) / 1000000 % 86400) % 3600 / 60).toNat
      = 1000 * j / 1000000 % 86400 % 3600 / 60 := by omega
  have c3 : ((((1000 * j : ℕ) : ℤ) / 1000000 % 86400) % 3600 % 60).toNat
      = 1000 * j / 1000000 % 86400 % 3600 % 60 := by omega
  have c4 : (((1000 * j : ℕ) : ℤ) % 1000000 / 1000).toNat
      = 1000 * j % 1000000 / 1000 := by omega
  simp only [format_seconds_to_time, timedelta_parts]
  rw [hu, c1, c2, c3, c4, hH, hM, hSc, hMs]

/-- C10 (amended): restricted to millisecond-exact inputs `k/1000`
seconds (the precision the codec's truncation already enforces), the
formatter silently discards whole days — adding 86400 seconds leaves
the rendered string unchanged — so parsing the rendering gives back
`(k mod 86400000)/1000` seconds, and the round trip
`parse ∘ format` is the identity exactly when `k/1000 < 86400`. -/
theorem format_time_day_discard (k : ℕ) :
    format_seconds_to_time ((k : ℚ) / 1000 + 86400)
      = format_seconds_to_time ((k : ℚ) / 1000) ∧
    parse_time_to_seconds (format_seconds_to_time ((k : ℚ) / 1000))
      = ((k % 86400000 : ℕ) : ℚ) / 1000 ∧
    (parse_time_to_seconds (format_seconds_to_time ((k : ℚ) / 1000))
        = (k : ℚ) / 1000 ↔ k < 86400000) := by
  have harg : (k : ℚ) / 1000 + 86400 = ((k + 86400000 : ℕ) : ℚ) / 1000 := by
    push_cast; ring
  have hper : format_seconds_to_time ((k : ℚ) / 1000 + 86400)
      = format_seconds_to_time ((k : ℚ) / 1000) := by
    rw [harg, format_ms_exact, format_ms_exact k]
    simp [Nat.add_mod_right]
  have hparse : parse_time_to_seconds (format_seconds_to_time ((k : ℚ) / 1000))
      = ((k % 86400000 : ℕ) : ℚ) / 1000 := by
    rw [format_ms_exact k,
      parse_format_fields _ _ _ _ (by omega) (by omega) (by omega) (by omega)]
    have h1 : k % 86400000 / 3600000 * 3600 + k % 86400000 / 60000 % 60 * 60
        + k % 86400000 / 1000 % 60 = k % 86400000 / 1000 := by omega
    have h2 : 1000 * (k % 86400000 / 1000) + k % 86400000 % 1000
        = k % 86400000 := by omega
    have h1q : ((k % 86400000 / 3600000 : ℕ) : ℚ) * 3600
        + ((k % 86400000 / 60000 % 60 : ℕ) : ℚ) * 60
        + ((k % 86400000 / 1000 % 60 : ℕ) : ℚ)
        = ((k % 86400000 / 1000 : ℕ) : ℚ) := by exact_mod_cast h1
    have h2q : (1000 : ℚ) * ((k % 86400000 / 1000 : ℕ) : ℚ)
        + ((k % 86400000 % 1000 : ℕ) : ℚ)
        = ((k % 86400000 : ℕ) : ℚ) := by exact_mod_cast h2
    field_simp
    linarith [h1q, h2q]
  refine ⟨hper, hparse, ?_⟩
  rw [hparse]
  constructor
  · intro he
    field_simp at he
    omega
  · intro hk
    rw [Nat.mod_eq_of_lt hk]

/-! ## Chapter XML codec (`MKVChapterManager._parse_chapter_xml`,
`MKVChapterManager._generate_chapter_xml`)

Translated from `auto_rename_mkv_chapters.py`, lines 535-567 and
596-628.  The decoder is a single `re.finditer` over the pattern

```
<ChapterAtom>.*?<ChapterUID>(.*?)</ChapterUID>.*?
<ChapterTimeStart>(.*?)</ChapterTimeStart>.*?
(?:<ChapterTimeEnd>(.*?)</ChapterTimeEnd>.*?)?
<ChapterDisplay>.*?<ChapterString>(.*?)</ChapterString>
```

with `re.DOTALL`.  Its lazy quantifiers and the greedy optional group
have, for one literal-pattern stage, exactly the "first occurrence"
semantics of `findSub`; the optional group is resolved by the first
position offering either `<ChapterTimeEnd>` (commit the group) or
`<ChapterDisplay>` (skip it) — `scanEOD` below.  This specialization
agrees with the regex engine whenever every stage succeeds, which is
the case on every document produced by the encoder; on a document where
a later stage fails the real engine would backtrack to a later
`<ChapterAtom>` while this parser stops, a case no encoder output
reaches. -/

def tagAtom : Str := "<ChapterAtom>".toList
def tagUIDopen : Str := "<ChapterUID>".toList
def tagUIDclose : Str := "</ChapterUID>".toList
def tagTSopen : Str := "<ChapterTimeStart>".toList
def tagTSclose : Str := "</ChapterTimeStart>".toList
def tagTEopen : Str := "<ChapterTimeEnd>".toList
def tagTEclose : Str := "</ChapterTimeEnd>".toList
def tagDisp : Str := "<ChapterDisplay>".toList
def tagCSopen : Str := "<ChapterString>".toList
def tagCSclose : Str := "</ChapterString>".toList

/-- The decode-side time cleanup: if the string has a fractional part
longer than 3 digits, keep only the first 3 (`parts[1][:3]`, dropping
any further dot-separated pieces, exactly as the slice-and-rebuild in
the source does). -/
def msClean (t : Str) : Str :=
  if '.' ∈ t then
    match pySplit '.' t with
    | p0 :: p1 :: _ => if 3 < p1.length then p0 ++ '.' :: p1.take 3 else t
    | _ => t
  else t

/-- The `(?:<ChapterTimeEnd>(.*?)</ChapterTimeEnd>.*?)?<ChapterDisplay>`
portion: scan left to right; the first position offering
`<ChapterTimeEnd>` commits the optional group (capture the end time,
then find `<ChapterDisplay>`), the first offering `<ChapterDisplay>`
skips it.  Returns the captured end time (if any) and the remainder
after `<ChapterDisplay>`. -/
def scanEOD : Str → Option (Option Str × Str)
  | [] => none
  | c :: rest =>
    if tagTEopen.isPrefixOf (c :: rest) then
      match findSub tagTEclose ((c :: rest).drop tagTEopen.length) with
      | none => none
      | some (e, r) =>
        match findSub tagDisp r with
        | none => none
        | some (_, r2) => some (some e, r2)
    else if tagDisp.isPrefixOf (c :: rest) then
      some (none, (c :: rest).drop tagDisp.length)
    else scanEOD rest

/-- One `finditer` step: match the chapter pattern once, returning the
chapter (times cleaned, an empty or missing end-time capture becoming
`none`) and the text after the match. -/
def parseAtom (s : Str) : Option (MKVChapter × Str) :=
  match findSub tagAtom s with
  | none => none
  | some (_, s1) =>
    match findSub tagUIDopen s1 with
    | none => none
    | some (_, s2) =>
      match findSub tagUIDclose s2 with
      | none => none
      | some (uid, s3) =>
        match findSub tagTSopen s3 with
        | none => none
        | some (_, s4) =>
          match findSub tagTSclose s4 with
          | none => none
          | some (start_raw, s5) =>
            match scanEOD s5 with
            | none => none
            | some (endRaw, s6) =>
              match findSub tagCSopen s6 with
              | none => none
              | some (_, s7) =>
                match findSub tagCSclose s7 with
                | none => none
                | some (title, s8) =>
                  some (⟨uid, msClean start_raw,
                    (match endRaw with
                     | none => none
                     | some e => if e = [] then none else some (msClean e)),
                    title⟩, s8)

/-- `finditer`: repeat `parseAtom` until no further match.  Every match
consumes at least one character, so the input length bounds the number
of iterations. -/
def parseChaptersLoop : Nat → Str → List MKVChapter
  | 0, _ => []
  | fuel + 1, s =>
    match parseAtom s with
    | none => []
    | some (c, rest) => c :: parseChaptersLoop fuel rest

/-- `MKVChapterManager._parse_chapter_xml`. -/
def parse_chapter_xml (s : Str) : List MKVChapter := parseChaptersLoop s.length s

/-- The per-chapter lines appended by `_generate_chapter_xml`; the
end-time line is emitted only when `chapter.end_time` is truthy (a
present, non-empty string). -/
def atomParts (chapter : MKVChapter) : List Str :=
  ["    <ChapterAtom>".toList,
   "      <ChapterUID>".toList ++ chapter.uid ++ "</ChapterUID>".toList,
   "      <ChapterTimeStart>".toList ++ chapter.start_time ++ "</ChapterTimeStart>".toList]
  ++ (match chapter.end_time with
      | some e =>
        if e = [] then []
        else ["      <ChapterTimeEnd>".toList ++ e ++ "</ChapterTimeEnd>".toList]
      | none => [])
  ++ ["      <ChapterDisplay>".toList,
      "        <ChapterString>".toList ++ chapter.title ++ "</ChapterString>".toList,
      "        <ChapterLanguage>und</ChapterLanguage>".toList,
      "      </ChapterDisplay>".toList,
      "    </ChapterAtom>".toList]

def headerParts : List Str :=
  ["<?xml version=\"1.0\" encoding=\"UTF-8\"?>".toList,
   "<!DOCTYPE Chapters SYSTEM \"matroskachapters.dtd\">".toList,
   "<Chapters>".toList,
   "  <EditionEntry>".toList]

def footerParts : List Str :=
  ["  </EditionEntry>".toList, "</Chapters>".toList]

def flatAtomParts : List MKVChapter → List Str
  | [] => []
  | c :: cs => atomParts c ++ flatAtomParts cs

/-- The `xml_parts` list of `_generate_chapter_xml`. -/
def xmlParts (chapters : List MKVChapter) : List Str :=
  headerParts ++ flatAtomParts chapters ++ footerParts

/-- `'\n'.join(...)`. -/
def lineJoin : List Str → Str
  | [] => []
  | [l] => l
  | l :: l' :: ls => l ++ '\n' :: lineJoin (l' :: ls)

/-- `MKVChapterManager._generate_chapter_xml`. -/
def generate_chapter_xml (chapters : List MKVChapter) : Str :=
  lineJoin (xmlParts chapters)

/-- A well-formed chapter record: no `<` inside any field (fields are
XML text, not markup), times already truncated to millisecond
precision, and a present end time non-empty. -/
def validChapter (c : MKVChapter) : Bool :=
  decide ('<' ∉ c.uid) && decide ('<' ∉ c.start_time) &&
  decide (msClean c.start_time = c.start_time) &&
  decide ('<' ∉ c.title) &&
  (match c.end_time with
   | none => true
   | some e => decide (e ≠ []) && decide ('<' ∉ e) && decide (msClean e = e))

/-! ### Search lemmas for `findSub`

`findSub pat` skips any junk that cannot start an occurrence of `pat`:
either because the junk contains no `<` while `pat` starts with one, or
because a decidable scan (`canSkip`) certifies that no suffix of the
junk starts or straddles an occurrence. -/

theorem isPrefixOf_append_self : ∀ (p b : Str), p.isPrefixOf (p ++ b) = true
  | [], _ => by simp [List.isPrefixOf]
  | c :: p', b => by
    simp [List.isPrefixOf, isPrefixOf_append_self p' b]

theorem isPrefixOf_append_cases : ∀ (a pat s : Str),
    pat.isPrefixOf (a ++ s) = true →
    pat.isPrefixOf a = true ∨ a.isPrefixOf pat = true := by
  intro a
  induction a with
  | nil => intro pat s _; exact Or.inr (by simp [List.isPrefixOf])
  | cons c a' ih =>
    intro pat s h
    cases pat with
    | nil => exact Or.inl rfl
    | cons p ps =>
      rw [List.cons_append] at h
      simp only [List.isPrefixOf, Bool.and_eq_true, beq_iff_eq] at h ⊢
      obtain ⟨hpc, hrest⟩ := h
      rcases ih ps s hrest with h' | h'
      · exact Or.inl ⟨hpc, h'⟩
      · exact Or.inr ⟨hpc.symm, h'⟩

theorem findSub_self (pat b : Str) : findSub pat (pat ++ b) = some ([], b) := by
  cases pat with
  | nil =>
    cases b with
    | nil => rfl
    | cons c r => simp [findSub, List.isPrefixOf]
  | cons p ps =>
    have h1 := isPrefixOf_append_self (p :: ps) b
    rw [List.cons_append] at h1
    rw [List.cons_append]
    simp only [findSub, h1, if_true]
    simp [List.drop_left]

/-- Skipping junk that contains no `<` when the pattern starts with
`<`. -/
theorem findSub_skip_lt (pat : Str) (hpat : pat.head? = some '<') :
    ∀ (junk s : Str), '<' ∉ junk →
      findSub pat (junk ++ s) =
        (findSub pat s).map fun p => (junk ++ p.1, p.2) := by
  intro junk
  induction junk with
  | nil =>
    intro s _
    cases h : findSub pat s <;> simp [h]
  | cons c j' ih =>
    intro s hj
    have hc : c ≠ '<' := fun hcc => hj (hcc ▸ List.mem_cons_self c j')
    have hj' : '<' ∉ j' := fun hm => hj (List.mem_cons_of_mem c hm)
    have hnp : pat.isPrefixOf (c :: (j' ++ s)) = false := by
      cases pat with
      | nil => simp at hpat
      | cons p ps =>
        have hp : p = '<' := by simpa using hpat
        simp [List.isPrefixOf, hp, Ne.symm hc]
    rw [List.cons_append]
    simp only [findSub, hnp, Bool.false_eq_true, if_false]
    rw [ih s hj']
    cases h : findSub pat s <;> simp

/-- A decidable certificate that a search for `pat` can skip `junk`
entirely: no suffix of `junk` starts an occurrence of `pat`, even one
straddling into the following text. -/
def canSkip (pat junk : Str) : Bool :=
  (List.range junk.length).all fun i =>
    !(pat.isPrefixOf (junk.drop i)) && !((junk.drop i).isPrefixOf pat)

theorem canSkip_tail (pat : Str) (c : Char) (j' : Str)
    (h : canSkip pat (c :: j') = true) : canSkip pat j' = true := by
  simp only [canSkip, List.all_eq_true, List.mem_range] at h ⊢
  intro i hi
  have := h (i + 1) (by simpa using Nat.succ_lt_succ hi)
  simpa using this

theorem findSub_skip (pat : Str) :
    ∀ (junk s : Str), canSkip pat junk = true →
      findSub pat (junk ++ s) =
        (findSub pat s).map fun p => (junk ++ p.1, p.2) := by
  intro junk
  induction junk with
  | nil =>
    intro s _
    cases h : findSub pat s <;> simp [h]
  | cons c j' ih =>
    intro s hj
    obtain ⟨hnp, hns⟩ : pat.isPrefixOf (c :: j') = false ∧
        (c :: j').isPrefixOf pat = false := by
      have := (List.all_eq_true.mp hj) 0 (by simp)
      simpa using this
    have hfull : pat.isPrefixOf (c :: j' ++ s) = false := by
      rw [Bool.eq_false_iff]
      intro hcontra
      rcases isPrefixOf_append_cases (c :: j') pat s hcontra with h' | h' <;>
        simp_all
    rw [List.cons_append]
    rw [List.cons_append] at hfull
    simp only [findSub, hfull, Bool.false_eq_true, if_false]
    rw [ih s (canSkip_tail pat c j' hj)]
    cases h : findSub pat s <;> simp

/-- `scanEOD` skips junk containing no `<` (both alternatives start
with `<`). -/
theorem scanEOD_skip :
    ∀ (junk s : Str), '<' ∉ junk → scanEOD (junk ++ s) = scanEOD s := by
  intro junk
  induction junk with
  | nil => intro s _; rfl
  | cons c j' ih =>
    intro s hj
    have hc : c ≠ '<' := fun hcc => hj (hcc ▸ List.mem_cons_self c j')
    have hj' : '<' ∉ j' := fun hm => hj (List.mem_cons_of_mem c hm)
    have h1 : tagTEopen.isPrefixOf (c :: (j' ++ s)) = false := by
      simp [tagTEopen, List.isPrefixOf, Ne.symm hc]
    have h2 : tagDisp.isPrefixOf (c :: (j' ++ s)) = false := by
      simp [tagDisp, List.isPrefixOf, Ne.symm hc]
    rw [List.cons_append]
    simp only [scanEOD, h1, h2, Bool.false_eq_true, if_false]
    exact ih s hj'

/-! ### Flattening the generated document

`lineJoin` (the `'\n'.join`) of the parts list is rewritten as the
concatenation of a flat header, one flat segment per chapter, and the
footer; `linesFlat` maps each line to `line ++ "\n"`. -/

def linesFlat : List Str → Str
  | [] => []
  | l :: ls => l ++ '\n' :: linesFlat ls

theorem lineJoin_append (A B : List Str) (hB : B ≠ []) :
    lineJoin (A ++ B) = linesFlat A ++ lineJoin B := by
  induction A with
  | nil => simp [linesFlat]
  | cons l A' ih =>
    cases A' with
    | nil =>
      cases B with
      | nil => exact absurd rfl hB
      | cons b B' => simp [lineJoin, linesFlat]
    | cons l2 A'' =>
      simp only [List.cons_append, lineJoin, List.append_eq] at ih ⊢
      rw [ih]
      simp [linesFlat, List.append_assoc]

theorem linesFlat_append (A B : List Str) :
    linesFlat (A ++ B) = linesFlat A ++ linesFlat B := by
  induction A with
  | nil => rfl
  | cons l A' ih => simp [linesFlat, ih]

/-- The flat text of one chapter's lines. -/
def atomFlat (c : MKVChapter) : Str := linesFlat (atomParts c)

def atomsFlat : List MKVChapter → Str
  | [] => []
  | c :: cs => atomFlat c ++ atomsFlat cs

theorem linesFlat_flatAtomParts : ∀ (cs : List MKVChapter),
    linesFlat (flatAtomParts cs) = atomsFlat cs := by
  intro cs
  induction cs with
  | nil => rfl
  | cons c cs' ih =>
    simp [flatAtomParts, atomsFlat, linesFlat_append, atomFlat, ih]

theorem generate_eq (cs : List MKVChapter) :
    generate_chapter_xml cs
      = linesFlat headerParts ++ (atomsFlat cs ++ lineJoin footerParts) := by
  unfold generate_chapter_xml xmlParts
  rw [show headerParts ++ flatAtomParts cs ++ footerParts
      = (headerParts ++ flatAtomParts cs) ++ footerParts from rfl,
    lineJoin_append _ _ (by simp [footerParts]),
    linesFlat_append, linesFlat_flatAtomParts, List.append_assoc]

/-! ### The shape of one flattened chapter segment -/

def sp4 : Str := "    ".toList
def nl6 : Str := '\n' :: "      ".toList
def nl8 : Str := '\n' :: "        ".toList

/-- The text of a chapter segment after `</ChapterString>`: the
language tag, the two closing tags, and the newline before the next
line of the document. -/
def atomTail : Str :=
  '\n' :: linesFlat ["        <ChapterLanguage>und</ChapterLanguage>".toList,
    "      </ChapterDisplay>".toList, "    </ChapterAtom>".toList]

theorem atomFlat_none (c : MKVChapter) (hend : c.end_time = none) :
    atomFlat c
      = sp4 ++ (tagAtom ++ (nl6 ++ (tagUIDopen ++ (c.uid ++ (tagUIDclose ++
        (nl6 ++ (tagTSopen ++ (c.start_time ++ (tagTSclose ++
        (nl6 ++ (tagDisp ++ (nl8 ++ (tagCSopen ++ (c.title ++ (tagCSclose ++
        atomTail))))))))))))))) := by
  have d1 : "    <ChapterAtom>".toList = sp4 ++ tagAtom := by decide
  have d2 : "      <ChapterUID>".toList = "      ".toList ++ tagUIDopen := by decide
  have d3 : "      <ChapterTimeStart>".toList = "      ".toList ++ tagTSopen := by decide
  have d5 : "      <ChapterDisplay>".toList = "      ".toList ++ tagDisp := by decide
  have d6 : "        <ChapterString>".toList = "        ".toList ++ tagCSopen := by decide
  simp only [atomFlat, atomParts, hend, linesFlat, List.append_assoc,
    List.cons_append, List.nil_append, d1, d2, d3, d5, d6, sp4, nl6, nl8,
    atomTail, tagUIDclose, tagTSclose, tagCSclose]

theorem atomFlat_some (c : MKVChapter) (e : Str) (hend : c.end_time = some e)
    (hne : e ≠ []) :
    atomFlat c
      = sp4 ++ (tagAtom ++ (nl6 ++ (tagUIDopen ++ (c.uid ++ (tagUIDclose ++
        (nl6 ++ (tagTSopen ++ (c.start_time ++ (tagTSclose ++
        (nl6 ++ (tagTEopen ++ (e ++ (tagTEclose ++
        (nl6 ++ (tagDisp ++ (nl8 ++ (tagCSopen ++ (c.title ++ (tagCSclose ++
        atomTail))))))))))))))))))) := by
  have d1 : "    <ChapterAtom>".toList = sp4 ++ tagAtom := by decide
  have d2 : "      <ChapterUID>".toList = "      ".toList ++ tagUIDopen := by decide
  have d3 : "      <ChapterTimeStart>".toList = "      ".toList ++ tagTSopen := by decide
  have d4 : "      <ChapterTimeEnd>".toList = "      ".toList ++ tagTEopen := by decide
  have d5 : "      <ChapterDisplay>".toList = "      ".toList ++ tagDisp := by decide
  have d6 : "        <ChapterString>".toList = "        ".toList ++ tagCSopen := by decide
  simp only [atomFlat, atomParts, hend, hne, if_neg, linesFlat,
    List.append_assoc, List.cons_append, List.nil_append, d1, d2, d3, d4, d5,
    d6, sp4, nl6, nl8, atomTail, tagUIDclose, tagTSclose, tagTEclose,
    tagCSclose]

/-! ### Computing one parse step on a generated segment -/

theorem findSub_skip_self (pat junk : Str) (h : canSkip pat junk = true)
    (s : Str) : findSub pat (junk ++ (pat ++ s)) = some (junk, s) := by
  rw [findSub_skip pat junk (pat ++ s) h, findSub_self]
  simp

theorem findSub_skip_lt_self (pat junk : Str) (hpat : pat.head? = some '<')
    (hj : '<' ∉ junk) (s : Str) :
    findSub pat (junk ++ (pat ++ s)) = some (junk, s) := by
  rw [findSub_skip_lt pat hpat junk (pat ++ s) hj, findSub_self]
  simp

theorem isPrefixOf_append_false (pat a : Str)
    (h1 : pat.isPrefixOf a = false) (h2 : a.isPrefixOf pat = false)
    (s : Str) : pat.isPrefixOf (a ++ s) = false := by
  rw [Bool.eq_false_iff]
  intro hc
  rcases isPrefixOf_append_cases a pat s hc with h' | h' <;> simp_all

theorem tagDisp_cons : tagDisp = '<' :: "ChapterDisplay>".toList := by decide

theorem tagTEopen_cons : tagTEopen = '<' :: "ChapterTimeEnd>".toList := by
  decide

theorem scanEOD_at_disp (s : Str) :
    scanEOD (tagDisp ++ s) = some (none, s) := by
  have h1 : tagTEopen.isPrefixOf (tagDisp ++ s) = false :=
    isPrefixOf_append_false tagTEopen tagDisp (by decide) (by decide) s
  have h2 : tagDisp.isPrefixOf (tagDisp ++ s) = true :=
    isPrefixOf_append_self _ _
  have hd : (tagDisp ++ s).drop tagDisp.length = s := List.drop_left _ _
  conv_lhs => rw [tagDisp_cons, List.cons_append]
  simp only [scanEOD]
  rw [show ('<' :: ("ChapterDisplay>".toList ++ s) : Str) = tagDisp ++ s from
    by rw [tagDisp_cons, List.cons_append]]
  simp only [h1, h2, Bool.false_eq_true, if_false, if_true, hd]

theorem scanEOD_at_end (e : Str) (he : '<' ∉ e) (s : Str) :
    scanEOD (tagTEopen ++ (e ++ (tagTEclose ++ s)))
      = match findSub tagDisp s with
        | none => none
        | some p => some (some e, p.2) := by
  have h2 : tagTEopen.isPrefixOf (tagTEopen ++ (e ++ (tagTEclose ++ s))) = true :=
    isPrefixOf_append_self _ _
  have hd : (tagTEopen ++ (e ++ (tagTEclose ++ s))).drop tagTEopen.length
      = e ++ (tagTEclose ++ s) := List.drop_left _ _
  conv_lhs => rw [tagTEopen_cons, List.cons_append]
  simp only [scanEOD]
  rw [show ('<' :: ("ChapterTimeEnd>".toList ++ (e ++ (tagTEclose ++ s))) : Str)
      = tagTEopen ++ (e ++ (tagTEclose ++ s)) from
    by rw [tagTEopen_cons, List.cons_append]]
  simp only [h2, if_true, hd]
  rw [findSub_skip_lt_self tagTEclose e (by decide) he]
  cases hfd : findSub tagDisp s with
  | none => simp [hfd]
  | some p => cases p with | mk f r => simp [hfd]

theorem scanEOD_skip_s (junk : Str) (hj : '<' ∉ junk) (s : Str) :
    scanEOD (junk ++ s) = scanEOD s := scanEOD_skip junk s hj

/-- Extract the components of `validChapter`. -/
theorem validChapter_parts (c : MKVChapter) (hc : validChapter c = true) :
    '<' ∉ c.uid ∧ '<' ∉ c.start_time ∧ msClean c.start_time = c.start_time ∧
    '<' ∉ c.title ∧
    (c.end_time = none ∨
      ∃ e, c.end_time = some e ∧ e ≠ [] ∧ '<' ∉ e ∧ msClean e = e) := by
  unfold validChapter at hc
  simp only [Bool.and_eq_true, decide_eq_true_eq] at hc
  obtain ⟨⟨⟨⟨h1, h2⟩, h3⟩, h4⟩, h5⟩ := hc
  refine ⟨h1, h2, h3, h4, ?_⟩
  cases hend : c.end_time with
  | none => exact Or.inl rfl
  | some e =>
    rw [hend] at h5
    simp only [Bool.and_eq_true, decide_eq_true_eq] at h5
    exact Or.inr ⟨e, rfl, h5.1.1, h5.1.2, h5.2⟩

/-- One `finditer` step on a generated chapter segment: any junk that
cannot start a `<ChapterAtom>` occurrence, followed by the segment of a
valid chapter, parses to exactly that chapter, leaving the segment tail
and the rest of the document. -/
theorem parseAtom_step (J : Str) (c : MKVChapter) (R : Str)
    (hJ : canSkip tagAtom (J ++ sp4) = true)
    (hc : validChapter c = true) :
    parseAtom (J ++ (atomFlat c ++ R)) = some (c, atomTail ++ R) := by
  obtain ⟨hu, hst, hms, ht, hend⟩ := validChapter_parts c hc
  rcases hend with hend | ⟨e, hend, hene, helt, hemc⟩
  · rw [atomFlat_none c hend]
    simp only [List.append_assoc]
    rw [← List.append_assoc J sp4]
    simp only [parseAtom,
      findSub_skip_self tagAtom (J ++ sp4) hJ,
      findSub_skip_lt_self tagUIDopen nl6 (by decide) (by decide),
      findSub_skip_lt_self tagUIDclose c.uid (by decide) hu,
      findSub_skip_lt_self tagTSopen nl6 (by decide) (by decide),
      findSub_skip_lt_self tagTSclose c.start_time (by decide) hst,
      scanEOD_skip_s nl6 (by decide),
      scanEOD_at_disp,
      findSub_skip_lt_self tagCSopen nl8 (by decide) (by decide),
      findSub_skip_lt_self tagCSclose c.title (by decide) ht,
      hms]
    rw [show MKVChapter.mk c.uid c.start_time none c.title
        = MKVChapter.mk c.uid c.start_time c.end_time c.title from by rw [hend]]
  · rw [atomFlat_some c e hend hene]
    simp only [List.append_assoc]
    rw [← List.append_assoc J sp4]
    simp only [parseAtom,
      findSub_skip_self tagAtom (J ++ sp4) hJ,
      findSub_skip_lt_self tagUIDopen nl6 (by decide) (by decide),
      findSub_skip_lt_self tagUIDclose c.uid (by decide) hu,
      findSub_skip_lt_self tagTSopen nl6 (by decide) (by decide),
      findSub_skip_lt_self tagTSclose c.start_time (by decide) hst,
      scanEOD_skip_s nl6 (by decide),
      scanEOD_at_end e helt,
      findSub_skip_lt_self tagDisp nl6 (by decide) (by decide),
      findSub_skip_lt_self tagCSopen nl8 (by decide) (by decide),
      findSub_skip_lt_self tagCSclose c.title (by decide) ht,
      hms, hemc, hene, if_neg]
    rw [show (if False then (none : Option Str) else some e) = some e from by simp,
      show MKVChapter.mk c.uid c.start_time (some e) c.title
        = MKVChapter.mk c.uid c.start_time c.end_time c.title from by rw [hend]]

set_option maxRecDepth 40000 in
/-- Running the `finditer` loop over the flattened chapter segments
followed by the footer returns exactly the chapter list, for any
leading junk that cannot start a `<ChapterAtom>` occurrence and yields
no match against the footer alone. -/
theorem parseLoop_atoms : ∀ (cs : List MKVChapter) (J : Str) (fuel : Nat),
    cs.length < fuel →
    canSkip tagAtom (J ++ sp4) = true →
    findSub tagAtom (J ++ lineJoin footerParts) = none →
    (∀ c ∈ cs, validChapter c = true) →
    parseChaptersLoop fuel (J ++ (atomsFlat cs ++ lineJoin footerParts)) = cs := by
  intro cs
  induction cs with
  | nil =>
    intro J fuel hf hskip hnone hv
    cases fuel with
    | zero => omega
    | succ f =>
      simp only [atomsFlat, List.nil_append]
      simp only [parseChaptersLoop, parseAtom, hnone]
  | cons c cs' ih =>
    intro J fuel hf hskip hnone hv
    cases fuel with
    | zero => omega
    | succ f =>
      have hstep := parseAtom_step J c (atomsFlat cs' ++ lineJoin footerParts)
        hskip (hv c (List.mem_cons_self c cs'))
      simp only [atomsFlat, List.append_assoc] at hstep ⊢
      simp only [parseChaptersLoop, hstep]
      congr 1
      exact ih atomTail f (by simpa using hf) (by decide) (by decide)
        (fun x hx => hv x (List.mem_cons_of_mem c hx))

set_option maxRecDepth 40000 in
/-- C1: for every sequence of well-formed chapters (fields free of `<`,
times already truncated to millisecond precision, a present end time
non-empty), decoding the document produced by encoding the sequence
yields the same chapters — same uids, start times, end times (`none`
preserved as an absent element) and titles, in the same order. -/
theorem parse_generate_roundtrip (cs : List MKVChapter)
    (h : ∀ c ∈ cs, validChapter c = true) :
    parse_chapter_xml (generate_chapter_xml cs) = cs := by
  have hatom : ∀ (l : List MKVChapter), l.length ≤ (atomsFlat l).length := by
    intro l
    induction l with
    | nil => simp [atomsFlat]
    | cons c l' ihl =>
      obtain ⟨x, xs, hsh⟩ : ∃ x xs, atomParts c = x :: xs := ⟨_, _, rfl⟩
      have hc1 : 1 ≤ (atomFlat c).length := by
        rw [atomFlat, hsh]
        simp [linesFlat]
        omega
      simp only [atomsFlat, List.length_append, List.length_cons]
      omega
  have hhead : 0 < (linesFlat headerParts).length := by decide
  have hlen : cs.length
      < (linesFlat headerParts ++ (atomsFlat cs ++ lineJoin footerParts)).length := by
    simp only [List.length_append]
    have := hatom cs
    omega
  unfold parse_chapter_xml
  rw [generate_eq]
  exact parseLoop_atoms cs (linesFlat headerParts) _ hlen (by decide) (by decide) h

/-- Two well-formed chapters, one with an end time and one without. -/
def demoChapters : List MKVChapter :=
  [⟨"101".toList, "00:00:00.000".toList, some "00:03:10.500".toList,
    "Opening".toList⟩,
   ⟨"102".toList, "00:03:10.500".toList, none, "Song 2".toList⟩]

/-- Witness for `parse_generate_roundtrip` on a concrete two-chapter
sequence. -/
theorem parse_generate_roundtrip_witness :
    (∀ c ∈ demoChapters, validChapter c = true) ∧
    parse_chapter_xml (generate_chapter_xml demoChapters) = demoChapters :=
  ⟨by decide, parse_generate_roundtrip demoChapters (by decide)⟩

end MKVSpec
